import Mathlib

/-!
Verification development for the lathe log-rotation daemon.

The definitions below are a shallow embedding of the Python sources
`lathe.py`, `processes.py` and `throttle.py`:

* Clock values and intervals (Python floats from `time.clock()`) are modelled
  as rationals; signals, errno values and file sizes as naturals.
* Filesystem paths are `String`s; the set of existing paths in the log
  directory is a `Finset String`; `os.path.join(dir, name)` for a relative
  `name` is `dir ++ "/" ++ name`.
* Python sets of strings are modelled as duplicate-free `List String`s in
  insertion order: `set(xs)` is `xs.dedup`, membership tests, removal and
  insertion translate elementwise, and iteration follows the list order (a
  deterministic stand-in for CPython's arbitrary set iteration order).
* The outcomes of the external OS calls the code branches on (`fcntl.lockf`,
  `os.kill`, `/proc` scans, per-file I/O during processing) are inputs to the
  embedded functions: an input records, for each call the Python code makes,
  whether that call succeeded or raised and with which errno, exactly at the
  granularity the code observes.
* Python exceptions are `Option Nat` / `Except Nat` values carrying the errno;
  log statements and file mutations are recorded as an explicit `Event` trace.
-/

namespace Lathe

/-- Linux errno values used by the sources: `errno.EACCES`. -/
def EACCES : Nat := 13

/-- Linux `errno.EAGAIN`. -/
def EAGAIN : Nat := 11

/-- Linux `ESRCH` ("no such process"); `lathe.py` writes the literal 3. -/
def ESRCH : Nat := 3

/-- Linux `EXDEV` ("invalid cross-device link"), raised by `os.rename`
across filesystems. -/
def EXDEV : Nat := 18

/-- `lathe.py` line 32: seconds between open-handle checks. -/
def FILE_OPEN_CHECK_INTERVAL : Nat := 5

/-- `lathe.py` line 33: give up after this many consecutive checks that
close no file. -/
def MAX_CHECKS_WITHOUT_FILE_CLOSED : Nat := 12

/-- `os.path.join(dir, name)` for a relative second component. -/
def pjoin (dir name : String) : String := dir ++ "/" ++ name

/-! ### throttle.py -/

/-- State of `throttle.Throttle`: the configured `minimum_interval` and the
`last_throttle` clock value, `none` when `__init__` set it to Python `None`. -/
structure Throttle where
  minimum_interval : ℚ
  last_throttle : Option ℚ
deriving DecidableEq

/-- Python truthiness of `self.last_throttle` as tested by
`if self.last_throttle:` (throttle.py line 18): `None` and `0` are falsy,
every other number truthy. -/
def pyTruthy : Option ℚ → Bool
  | none => false
  | some v => decide (v ≠ 0)

/-- `Throttle.__init__(minimum_interval)`: `last_throttle` starts as `None`. -/
def Throttle.init (minimum_interval : ℚ) : Throttle :=
  ⟨minimum_interval, none⟩

/-- `Throttle.wait(self)` (throttle.py lines 16-22), with the clock value read
by `self.time.clock()` on entry passed in as `now`. Returns the duration passed
to `self.time.sleep` (0 when no sleep happens) and the updated state; the
elapsed interval is `now` minus the recorded release point. -/
def Throttle.wait (t : Throttle) (now : ℚ) : ℚ × Throttle :=
  if pyTruthy t.last_throttle then
    if now - t.last_throttle.getD 0 < t.minimum_interval then
      (t.minimum_interval - (now - t.last_throttle.getD 0),
        ⟨t.minimum_interval, some now⟩)
    else
      (0, ⟨t.minimum_interval, some now⟩)
  else
    (0, ⟨t.minimum_interval, some now⟩)

/-! ### processes.py -/

/-- One step of the scan loop in `check_for_open_files` (processes.py lines
239-253): a successfully read `/proc/<pid>/fd` symlink target `tgt` that is a
member of the closed set is removed from it and added to the open set. -/
def cofStep (acc : List String × List String) (tgt : String) :
    List String × List String :=
  if tgt ∈ acc.1 then (acc.1.erase tgt, acc.2 ++ [tgt]) else acc

/-- `processes.check_for_open_files(filenames)` (processes.py lines 227-258).
`filenames` is the input iterable (`closed_handles = set(filenames)` both
deduplicates it and fixes the working set); `fd_targets` lists, in scan order,
every `/proc/<pid>/fd` symlink target the scan reads successfully (targets
whose `readlink` fails with `ENOENT` are skipped by the code and therefore do
not appear). Returns the pair `(closed_handles, open_handles)`. -/
def check_for_open_files (filenames : List String) (fd_targets : List String) :
    List String × List String :=
  fd_targets.foldl cofStep (filenames.dedup, [])

/-! ### lathe.py: observable events

Log statements and filesystem mutations performed by `rotate_log_files` are
recorded as an ordered trace of events. Per-file processing events carry the
rotated file name exactly as the code handles it. -/

inductive Event
  | warn_lock_held
  | error_preflight (names : List String)
  | renamed (src dst : String)
  | warn_collision (path : String)
  | polled
  | staged (name : String)
  | compressed (name : String)
  | uploaded (name : String)
  | deleted (name : String)
  | error_processing (name : String)
  | error_gave_up (names : List String)
deriving DecidableEq

/-- Outcome of one `os.kill(pid, sig)` call: success, or an `OSError` with
the given errno. -/
inductive KillOutcome
  | ok
  | osError (errno : Nat)
deriving DecidableEq

/-- `lathe.kill_if_running(pid, signal)` (lathe.py lines 78-83): an `OSError`
with errno 3 (`ESRCH`) is swallowed, any other errno is re-raised. -/
def kill_if_running : KillOutcome → Except Nat Unit
  | .ok => .ok ()
  | .osError e => if e = 3 then .ok () else .error e

/-- The pre-flight probe loop body for one process name (lathe.py lines
97-101): `for pid in pids: kill_if_running(pid, 0)` inside `try/except
OSError`. The input lists the `os.kill` outcome for each resolved pid in
order; the result is whether an `OSError` escaped `kill_if_running` (stopping
the loop) and was caught by the surrounding `except`. -/
def probe_pids : List KillOutcome → Bool
  | [] => false
  | o :: rest =>
    match kill_if_running o with
    | .error _ => true
    | .ok _ => probe_pids rest

/-- The `unkillable_processes` set collected by lathe.py lines 94-101, as a
list in configuration order: the process names whose probe loop caught an
`OSError`. -/
def unkillable_processes (probes : List (String × List KillOutcome)) : List String :=
  (probes.filter fun p => probe_pids p.2).map Prod.fst

/-- The reopen-signal loop for one process (lathe.py lines 133-135): the first
errno escaping `kill_if_running` propagates. -/
def signal_pids : List KillOutcome → Option Nat
  | [] => none
  | o :: rest =>
    match kill_if_running o with
    | .error e => some e
    | .ok _ => signal_pids rest

/-- The whole kick loop (lathe.py lines 129-135), given the `os.kill` outcomes
per configured process: the first escaping errno propagates. -/
def signal_phase : List (String × List KillOutcome) → Option Nat
  | [] => none
  | p :: rest =>
    match signal_pids p.2 with
    | some e => some e
    | none => signal_phase rest

/-! ### lathe.py: per-file processing and the drain loop -/

/-- Which call of the per-file processing sequence (lathe.py lines 152-163)
raises, if any. -/
inductive FailPoint
  | stat
  | copy
  | compress
  | upload
  | unlink
deriving DecidableEq

/-- Behaviour of the externals for one rotated file when it is processed: the
size `os.stat` reports, and the first call in the sequence that raises. -/
structure FileBehavior where
  size : Nat
  fails : Option FailPoint
deriving DecidableEq

/-- The body of the `try:` block in lathe.py lines 151-163 for one closed
file: stat the rotated file; when its size is positive, `copy_atomic` it into
the spool directory; `compress_file` it in place; upload the archive; unlink
the archive. Returns the events performed before any raise, and whether an
exception escaped the `try:` body. A `copy` failure cannot happen when the
size is 0 because `copy_atomic` is not called then. -/
def process_file (b : FileBehavior) (name : String) : List Event × Bool :=
  if b.fails = some FailPoint.stat then ([], true)
  else
    let copyStep : List Event × Bool :=
      if b.size > 0 then
        if b.fails = some FailPoint.copy then ([], true) else ([.staged name], false)
      else ([], false)
    if copyStep.2 then copyStep
    else if b.fails = some FailPoint.compress then (copyStep.1, true)
    else
      let evs := copyStep.1 ++ [.compressed name]
      if b.fails = some FailPoint.upload then (evs, true)
      else
        let evs := evs ++ [.uploaded name]
        if b.fails = some FailPoint.unlink then (evs, true)
        else (evs ++ [.deleted name], false)

/-- Per-file processing with the surrounding bare `except:` (lathe.py lines
164-165): an escaping exception is logged with the filename and swallowed. -/
def try_process (behavior : String → FileBehavior) (name : String) : List Event :=
  let r := process_file (behavior name) name
  if r.2 then r.1 ++ [.error_processing name] else r.1

/-- Result of the drain loop: the `while open_files:` loop left normally
(`finished`), the give-up branch returned (`gaveUp`), or the supplied
observation trace ended while the loop was still running (`running`). -/
inductive DrainOutcome
  | finished
  | gaveUp
  | running (openFiles : List String) (checks : Nat)
deriving DecidableEq

/-- The drain loop of `rotate_log_files` (lathe.py lines 146-172). `trace`
lists, for each successive poll cycle, the `/proc` fd symlink targets that
cycle's `check_for_open_files` scan reads; `openFiles` is the current
`open_files` working set (initially the rotated names) and `checks` the
current `checks_without_closed_files` counter. Every cycle emits a `polled`
event (the `throttle_file_checks.wait()` call), processes each file of the
closed set, and then runs the give-up accounting. -/
def drain_run (behavior : String → FileBehavior) :
    List (List String) → List String → Nat → DrainOutcome × List Event
  | trace, openFiles, checks =>
    if openFiles = [] then (.finished, [])
    else
      match trace with
      | [] => (.running openFiles checks, [])
      | fds :: rest =>
        let res := check_for_open_files openFiles fds
        let procEvs := (res.1.map (try_process behavior)).flatten
        if res.1 = [] then
          if MAX_CHECKS_WITHOUT_FILE_CLOSED < checks + 1 then
            (.gaveUp, .polled :: (procEvs ++ [.error_gave_up res.2]))
          else
            let r := drain_run behavior rest res.2 (checks + 1)
            (r.1, .polled :: (procEvs ++ r.2))
        else
          let r := drain_run behavior rest res.2 0
          (r.1, .polled :: (procEvs ++ r.2))

/-! ### lathe.py: rename phase -/

/-- The rename loop of `rotate_log_files` (lathe.py lines 118-127) over the
candidate names, threading the set `fs` of existing absolute paths: a
candidate whose `rotated_path` does not exist is renamed (its original path is
removed from the filesystem and the rotated path added, and its rotated name
appended to `rotated_files`); otherwise a collision warning is logged and
nothing changes. Returns the final path set, `rotated_files`, and the events. -/
def rename_phase (dir suffix : String) :
    Finset String → List String → Finset String × List String × List Event
  | fs, [] => (fs, [], [])
  | fs, c :: rest =>
    let original_path := pjoin dir c
    let rotated_path := pjoin dir (c ++ suffix)
    if rotated_path ∈ fs then
      let r := rename_phase dir suffix fs rest
      (r.1, r.2.1, .warn_collision rotated_path :: r.2.2)
    else
      let r := rename_phase dir suffix (insert rotated_path (fs.erase original_path)) rest
      (r.1, (c ++ suffix) :: r.2.1, .renamed original_path rotated_path :: r.2.2)

/-! ### lathe.py: copy_atomic -/

/-- Filesystem layout relevant to `copy_atomic`: which filesystem the system
default temporary directory (used by a bare `tempfile.mkdtemp()`) lives on,
and which filesystem each path lives on. -/
structure FsConfig where
  tempdirFs : Nat
  fsOf : String → Nat

/-- Observable actions of `copy_atomic`. `copiedToTemp` records a complete
copy of the source written at the fresh temporary path (which lives on
filesystem `fs`); `renamedToTarget` is the `os.rename` installing that copy at
the target path, the only action that ever makes the target path exist. -/
inductive CopyEvent
  | mkdtemp (fs : Nat)
  | copiedToTemp (source : String) (fs : Nat)
  | renamedToTarget (target : String)
  | rmtree
deriving DecidableEq

/-- `lathe.copy_atomic(source, target)` (lathe.py lines 61-75):
`tempfile.mkdtemp()` creates the temporary directory in the system default
location — its filesystem is `cfg.tempdirFs` regardless of the target —
`shutil.copy` writes the complete copy there, and `os.rename` moves it onto
the target. `os.rename` succeeds only within one filesystem; across
filesystems it raises `EXDEV` without creating the target, and the `finally:`
block removes the temporary tree either way. Returns the event trace and the
escaping errno, if any. -/
def copy_atomic (cfg : FsConfig) (source target : String) :
    List CopyEvent × Option Nat :=
  let tfs := cfg.tempdirFs
  if tfs = cfg.fsOf target then
    ([.mkdtemp tfs, .copiedToTemp source tfs, .renamedToTarget target, .rmtree],
      none)
  else
    ([.mkdtemp tfs, .copiedToTemp source tfs, .rmtree], some EXDEV)

/-! ### lathe.py: lock protocol and the full run -/

/-- Outcome of the `fcntl.lockf(lock_handle, LOCK_EX | LOCK_NB)` call in
`request_lock` (lathe.py line 52). -/
inductive LockfOutcome
  | success
  | ioError (errno : Nat)
deriving DecidableEq

/-- One full run of `rotate_log_files` (lathe.py lines 86-172) as observed by
its environment: the outcome of the lock attempt, the pre-flight `os.kill`
probe outcomes per configured process name, the log directory and its listing,
the configured filename filter (`fnmatch` against the configured pattern,
abstracted as a predicate), the one timestamp suffix `strftime` produces for
this run, the set of existing absolute paths, the reopen-signal outcomes, the
per-file processing behaviour, and the drain-loop observation trace. -/
structure RunInput where
  lockf : LockfOutcome
  preflight : List (String × List KillOutcome)
  log_directory : String
  listing : List String
  filename_filter : String → Bool
  rotation_suffix : String
  fs : Finset String
  signals : List (String × List KillOutcome)
  behavior : String → FileBehavior
  trace : List (List String)

/-- The body of the `with request_lock(...) as acquired:` block (lathe.py
lines 88-172), returning the errno of an escaping exception (if any) and the
event trace. -/
def run_body (inp : RunInput) (acquired : Bool) : Option Nat × List Event :=
  if acquired then
    let unk := unkillable_processes inp.preflight
    if unk = [] then
      let files_to_rotate := inp.listing.filter inp.filename_filter
      let r := rename_phase inp.log_directory inp.rotation_suffix inp.fs files_to_rotate
      match signal_phase inp.signals with
      | some e => (some e, r.2.2)
      | none =>
        let d := drain_run inp.behavior inp.trace r.2.1 0
        (none, r.2.2 ++ d.2)
    else (none, [.error_preflight unk])
  else (none, [.warn_lock_held])

/-- `rotate_log_files` including the `request_lock` context manager semantics
(lathe.py lines 48-58 and 86-90). When `lockf` succeeds the generator yields
`True` and stops cleanly afterwards, so the body's outcome passes through.
When `lockf` raises an `IOError` whose errno is `EACCES` or `EAGAIN`, the
generator yields `False`; the body logs the warning and returns, after which
`contextlib` resumes the generator past `yield False` and its bare `raise`
re-raises the `IOError` out of the `with` statement. Any other `IOError`
escapes `request_lock` before yielding. Returns the errno escaping
`rotate_log_files` (if any) and the event trace. -/
def rotate_log_files (inp : RunInput) : Option Nat × List Event :=
  match inp.lockf with
  | .success => run_body inp true
  | .ioError e =>
    if e = EACCES ∨ e = EAGAIN then
      let r := run_body inp false
      (some (r.1.getD e), r.2)
    else (some e, [])

/-! ### Concrete inputs used by counterexamples and witnesses -/

/-- Filesystem layout where the system temporary directory (filesystem 0) and
the spool directory (filesystem 1) are on different filesystems. -/
def cfgCrossDevice : FsConfig :=
  ⟨0, fun p => if p = "/var/spool/flume/a.log.X" then 1 else 0⟩

/-- Filesystem layout where everything is on one filesystem. -/
def cfgOneDevice : FsConfig := ⟨0, fun _ => 0⟩

/-- Per-file behaviour where every external call succeeds and files have five
bytes. -/
def behOk : String → FileBehavior := fun _ => ⟨5, none⟩

/-- Per-file behaviour where the S3 upload of every file raises. -/
def behUploadFails : String → FileBehavior := fun _ => ⟨5, some FailPoint.upload⟩

/-- A run finding the lock already held: `fcntl.lockf` raises `EAGAIN`.
One candidate file is present and would be renameable. -/
def inpLockHeld : RunInput :=
  { lockf := .ioError EAGAIN
    preflight := [("flume", [.ok])]
    log_directory := "/var/log"
    listing := ["a.log"]
    filename_filter := fun _ => true
    rotation_suffix := "X"
    fs := {"/var/log/a.log"}
    signals := [("flume", [.ok])]
    behavior := behOk
    trace := [] }

/-- A run in which the single configured process exited between PID resolution
and the pre-flight probe: `os.kill(pid, 0)` raises `ESRCH` (errno 3). One
candidate file is present. -/
def inpDeadProcess : RunInput :=
  { lockf := .success
    preflight := [("flume", [.osError 3])]
    log_directory := "/var/log"
    listing := ["a.log"]
    filename_filter := fun _ => true
    rotation_suffix := "X"
    fs := {"/var/log/a.log"}
    signals := []
    behavior := behOk
    trace := [] }

/-- A run in which the probe of the single configured process raises `EPERM`
(errno 1, permission denied). -/
def inpUnkillableProcess : RunInput :=
  { lockf := .success
    preflight := [("flume", [.osError 1])]
    log_directory := "/var/log"
    listing := ["a.log"]
    filename_filter := fun _ => true
    rotation_suffix := "X"
    fs := {"/var/log/a.log"}
    signals := []
    behavior := behOk
    trace := [] }

/-- An `os.kill` probe outcome raising an errno other than 3 anywhere in the
pid list makes the probe loop catch an `OSError`. -/
theorem probe_pids_of_error {outs : List KillOutcome} {e : Nat}
    (he : e ≠ 3) (ho : KillOutcome.osError e ∈ outs) : probe_pids outs = true := by
  induction outs with
  | nil => cases ho
  | cons o rest ih =>
    rcases List.mem_cons.mp ho with h | h
    · subst h
      simp [probe_pids, kill_if_running, if_neg he]
    · cases o with
      | ok => simpa [probe_pids, kill_if_running] using ih h
      | osError f =>
        by_cases h3 : f = 3
        · subst h3
          simpa [probe_pids, kill_if_running] using ih h
        · simp [probe_pids, kill_if_running, if_neg h3]

/-- A configured process whose probe loop caught an `OSError` ends up in the
unkillable list. -/
theorem mem_unkillable {probes : List (String × List KillOutcome)} {name : String}
    {outs : List KillOutcome} (hmem : (name, outs) ∈ probes)
    (hbad : probe_pids outs = true) : name ∈ unkillable_processes probes := by
  unfold unkillable_processes
  exact List.mem_map.mpr ⟨(name, outs), List.mem_filter.mpr ⟨hmem, hbad⟩, rfl⟩

/-- C3 counterexample: in `inpDeadProcess` the only configured process exited
between PID resolution and the probe, so `os.kill(pid, 0)` raises `ESRCH` —
one of the two situations the claim says aborts the run before any file is
touched. `kill_if_running` swallows errno 3, so the run does not abort: it
renames the candidate file and completes cleanly with no pre-flight error
logged. -/
theorem C3_dead_process_probe_does_not_abort :
    rotate_log_files inpDeadProcess =
      (none, [.renamed (pjoin "/var/log" "a.log")
        (pjoin "/var/log" ("a.log" ++ "X"))]) := by
  decide

/-- C3 (amended): for every run in which some configured process name resolves
to a PID whose zero-effect probe fails with an `OSError` other than `ESRCH`
(errno 3) — permission denied, for example — `rotate_log_files` logs the
offending process names and returns before renaming or otherwise mutating any
file; a probe failing with `ESRCH` because the process exited between
resolution and the probe is swallowed and does not abort the run. -/
theorem C3_unsignalable_process_aborts_before_rename (inp : RunInput)
    (name : String) (outs : List KillOutcome) (e : Nat)
    (hlock : inp.lockf = .success)
    (hmem : (name, outs) ∈ inp.preflight)
    (ho : KillOutcome.osError e ∈ outs) (he : e ≠ 3) :
    rotate_log_files inp =
        (none, [.error_preflight (unkillable_processes inp.preflight)]) ∧
      name ∈ unkillable_processes inp.preflight := by
  have hn : name ∈ unkillable_processes inp.preflight :=
    mem_unkillable hmem (probe_pids_of_error he ho)
  have hne : unkillable_processes inp.preflight ≠ [] := by
    intro h
    rw [h] at hn
    cases hn
  refine ⟨?_, hn⟩
  unfold rotate_log_files
  rw [hlock]
  unfold run_body
  rw [if_pos rfl, if_neg hne]

/-- C3 witness: a run whose single configured process denies the probe signal
with `EPERM` (errno 1) aborts with the pre-flight error before renaming. -/
theorem C3_unsignalable_process_witness :
    rotate_log_files inpUnkillableProcess =
        (none,
          [.error_preflight (unkillable_processes inpUnkillableProcess.preflight)]) ∧
      "flume" ∈ unkillable_processes inpUnkillableProcess.preflight :=
  C3_unsignalable_process_aborts_before_rename inpUnkillableProcess "flume"
    [.osError 1] 1 rfl (by decide) (by decide) (by decide)

end Lathe

namespace Lathe

/-! ### Claim theorems -/

/-! #### Supporting lemmas -/

/-- The closed set after the scan fold: the working set minus every observed
target, in order. -/
theorem cof_foldl_closed (fds : List String) :
    ∀ c o : List String, c.Nodup →
      (fds.foldl cofStep (c, o)).1 = c.filter fun f => decide (f ∉ fds) := by
  induction fds with
  | nil =>
    intro c o _
    simp
  | cons tgt rest ih =>
    intro c o hc
    simp only [List.foldl_cons, cofStep]
    by_cases h : tgt ∈ c
    · rw [if_pos h, ih _ _ (hc.erase tgt)]
      rw [List.Nodup.erase_eq_filter hc tgt, List.filter_filter]
      refine List.filter_congr ?_
      intro x _
      by_cases hx : x = tgt <;> simp [hx]
    · rw [if_neg h, ih _ _ hc]
      refine List.filter_congr ?_
      intro x hx
      have : x ≠ tgt := fun hxx => h (hxx ▸ hx)
      simp [this]

/-- The open set after the scan fold, as a set: everything already collected
plus the members of the working set that some observed target hits. -/
theorem cof_foldl_opened (fds : List String) :
    ∀ c o : List String, c.Nodup →
      (fds.foldl cofStep (c, o)).2.toFinset =
        o.toFinset ∪ c.toFinset ∩ fds.toFinset := by
  induction fds with
  | nil =>
    intro c o _
    simp
  | cons tgt rest ih =>
    intro c o hc
    simp only [List.foldl_cons, cofStep]
    by_cases h : tgt ∈ c
    · rw [if_pos h, ih _ _ (hc.erase tgt)]
      ext x
      simp only [List.toFinset_append, List.toFinset_cons, List.toFinset_nil,
        Finset.mem_union, Finset.mem_inter, List.mem_toFinset, Finset.mem_insert,
        Finset.mem_singleton, hc.mem_erase_iff, List.mem_cons]
      by_cases hx : x = tgt <;> simp [hx, h]
    · rw [if_neg h, ih _ _ hc]
      ext x
      simp only [Finset.mem_union, Finset.mem_inter, List.mem_toFinset,
        List.toFinset_cons, Finset.mem_insert]
      by_cases hx : x = tgt <;> simp [hx, h]

/-- The open set accumulated by the scan fold stays duplicate-free and
disjoint from the closed set. -/
theorem cof_foldl_opened_nodup (fds : List String) :
    ∀ c o : List String, c.Nodup → o.Nodup → (∀ x ∈ o, x ∉ c) →
      (fds.foldl cofStep (c, o)).2.Nodup ∧
        ∀ x ∈ (fds.foldl cofStep (c, o)).2, x ∉ (fds.foldl cofStep (c, o)).1 := by
  induction fds with
  | nil =>
    intro c o _ ho hdisj
    exact ⟨ho, hdisj⟩
  | cons tgt rest ih =>
    intro c o hc ho hdisj
    simp only [List.foldl_cons, cofStep]
    by_cases h : tgt ∈ c
    · rw [if_pos h]
      refine ih _ _ (hc.erase tgt) ?_ ?_
      · simp only [List.nodup_append, List.nodup_cons, List.nodup_nil]
        exact ⟨ho, by simp, by simpa using fun hto => (hdisj tgt hto) h⟩
      · intro x hx
        rcases List.mem_append.mp hx with hx | hx
        · exact fun hcx => hdisj x hx (List.mem_of_mem_erase hcx)
        · have hxt : x = tgt := by simpa using hx
          subst hxt
          exact hc.not_mem_erase
    · rw [if_neg h]
      exact ih _ _ hc ho hdisj

/-- Set-level description of `check_for_open_files`: closed is the input set
minus the observed targets, open is their intersection. -/
theorem check_for_open_files_spec (filenames fds : List String) :
    (check_for_open_files filenames fds).1.toFinset =
        filenames.toFinset \ fds.toFinset ∧
      (check_for_open_files filenames fds).2.toFinset =
        filenames.toFinset ∩ fds.toFinset := by
  unfold check_for_open_files
  constructor
  · rw [cof_foldl_closed fds _ _ filenames.nodup_dedup]
    ext x
    simp only [List.mem_toFinset, List.mem_filter, Finset.mem_sdiff,
      List.mem_dedup, decide_eq_true_eq]
  · rw [cof_foldl_opened fds _ _ filenames.nodup_dedup]
    ext x
    simp


/-- C9: for every input set of filenames and every process-table scan, the
pair (closed, open) returned by `check_for_open_files` satisfies: the two sets
are disjoint, and their union equals the input set. -/
theorem C9_partition_disjoint_union (filenames fd_targets : List String) :
    Disjoint (check_for_open_files filenames fd_targets).1.toFinset
        (check_for_open_files filenames fd_targets).2.toFinset ∧
      (check_for_open_files filenames fd_targets).1.toFinset ∪
          (check_for_open_files filenames fd_targets).2.toFinset =
        filenames.toFinset := by
  obtain ⟨h1, h2⟩ := check_for_open_files_spec filenames fd_targets
  rw [h1, h2]
  exact ⟨Finset.disjoint_sdiff_inter _ _, Finset.sdiff_union_inter _ _⟩

/-- C10: `Throttle.wait` records the clock value read on entry as the new
release point, and tests the stored release point for truthiness rather than
presence: after a `wait()` that read clock value 0, the next `wait()` behaves
as a first call and never sleeps, regardless of how little time has elapsed. -/
theorem C10_truthiness_of_release_point (t : Throttle) (now next : ℚ) :
    (t.wait now).2.last_throttle = some now ∧ ((t.wait 0).2.wait next).1 = 0 := by
  constructor
  · unfold Throttle.wait
    split_ifs <;> rfl
  · have h2 : (t.wait 0).2 = ⟨t.minimum_interval, some 0⟩ := by
      unfold Throttle.wait
      split_ifs <;> rfl
    rw [h2]
    unfold Throttle.wait
    simp [pyTruthy]

/-- C8 counterexample: the claim quantifies over every clock trace, but with
minimum interval 10 and both waits reading clock value 0, less than the
minimum interval (namely 0 < 10) has elapsed at the second wait and the
remaining deficit is 10, yet the second wait sleeps 0. -/
theorem C8_zero_clock_deficit_not_slept :
    (((Throttle.init 10).wait 0).2.wait 0).1 = 0 ∧
      ((0 : ℚ) - 0 < 10 ∧ (10 : ℚ) - (0 - 0) = 10 ∧ (0 : ℚ) ≠ 10) := by
  refine ⟨?_, by norm_num⟩
  norm_num [Throttle.init, Throttle.wait, pyTruthy]

/-- C8 (amended): the first `wait()` never sleeps; a `wait()` called when
exactly the minimum interval has elapsed since the previous `wait()` never
sleeps; and a `wait()` called when less than the minimum interval has elapsed
sleeps for exactly the remaining deficit, provided the clock value the
previous `wait()` recorded was nonzero. -/
theorem C8_throttle_amended (m now last : ℚ) (t : Throttle) :
    ((Throttle.init m).wait now).1 = 0 ∧
      (t.last_throttle = some last → now - last = t.minimum_interval →
        (t.wait now).1 = 0) ∧
      (t.last_throttle = some last → last ≠ 0 →
        now - last < t.minimum_interval →
        (t.wait now).1 = t.minimum_interval - (now - last)) := by
  refine ⟨?_, ?_, ?_⟩
  · simp [Throttle.init, Throttle.wait, pyTruthy]
  · intro hlast helapsed
    unfold Throttle.wait
    rw [hlast]
    by_cases h : pyTruthy (some last) = true
    · rw [if_pos h, Option.getD_some, helapsed, if_neg (lt_irrefl _)]
    · rw [if_neg h]
  · intro hlast hnz hless
    have ht : pyTruthy (some last) = true := by simp [pyTruthy, hnz]
    unfold Throttle.wait
    rw [hlast, if_pos ht, Option.getD_some, if_pos hless]

/-- C8 witness: with minimum interval 10, a previous wait recorded at clock 5
and the next wait at clock 7, only 2 < 10 seconds have elapsed and the wait
sleeps the deficit 8. -/
theorem C8_throttle_amended_witness :
    ((Throttle.mk 10 (some 5)).wait 7).1 = 10 - ((7 : ℚ) - 5) :=
  (C8_throttle_amended 10 7 5 ⟨10, some 5⟩).2.2 rfl (by norm_num) (by norm_num)

/-- C4 counterexample: the temporary path of `copy_atomic` is created by a
bare `tempfile.mkdtemp()` in the system default temporary directory, here on
filesystem 0, while the target lives on filesystem 1: the complete copy is
written on a different filesystem than the target — contradicting the claimed
"temporary path located on the same filesystem as the target" — and the
rename onto the target then fails with `EXDEV` instead of installing it. -/
theorem C4_temp_not_on_target_filesystem :
    copy_atomic cfgCrossDevice "/var/log/a.log.X" "/var/spool/flume/a.log.X" =
        ([.mkdtemp 0, .copiedToTemp "/var/log/a.log.X" 0, .rmtree], some EXDEV) ∧
      cfgCrossDevice.tempdirFs ≠ cfgCrossDevice.fsOf "/var/spool/flume/a.log.X" := by
  constructor
  · rfl
  · decide

/-- C4 (amended): `copy_atomic` first writes a complete copy of the source at
a temporary path in the system default temporary directory — a location
chosen independently of the target — and only then renames it onto the
target. When the temporary directory happens to lie on the target's
filesystem the rename atomically installs the complete copy; otherwise the
rename fails with `EXDEV` and the target path is never created. In both cases
the target path never holds a partially written file under its final name. -/
theorem C4_staging_copy_amended (cfg : FsConfig) (source target : String) :
    (cfg.tempdirFs = cfg.fsOf target →
        copy_atomic cfg source target =
          ([.mkdtemp cfg.tempdirFs, .copiedToTemp source cfg.tempdirFs,
            .renamedToTarget target, .rmtree], none)) ∧
      (cfg.tempdirFs ≠ cfg.fsOf target →
        copy_atomic cfg source target =
          ([.mkdtemp cfg.tempdirFs, .copiedToTemp source cfg.tempdirFs,
            .rmtree], some EXDEV)) := by
  unfold copy_atomic
  constructor
  · intro h
    rw [if_pos h]
  · intro h
    rw [if_neg h]

/-- C4 witness: on a single-filesystem layout the staging copy succeeds and
the complete copy is written before the rename installs it at the target. -/
theorem C4_staging_copy_amended_witness :
    copy_atomic cfgOneDevice "/var/log/a.log.X" "/var/spool/flume/a.log.X" =
      ([.mkdtemp 0, .copiedToTemp "/var/log/a.log.X" 0,
        .renamedToTarget "/var/spool/flume/a.log.X", .rmtree], none) :=
  (C4_staging_copy_amended cfgOneDevice "/var/log/a.log.X"
    "/var/spool/flume/a.log.X").1 rfl

/-- C1: the coordinator passes the bare rotated file names to
`check_for_open_files`, whose `/proc/<pid>/fd` scan reads absolute symlink
targets. With the rotated file `a.log.X` living in `/var/log` and a writer
holding the absolute path `/var/log/a.log.X` open in the very scan of the
first poll cycle, the file is nonetheless reported closed and fully
processed — staged, compressed, uploaded and deleted — in that first cycle. -/
theorem C1_processes_file_despite_open_handle :
    drain_run behOk [[pjoin "/var/log" "a.log.X"]] ["a.log.X"] 0 =
      (.finished,
        [.polled, .staged "a.log.X", .compressed "a.log.X",
         .uploaded "a.log.X", .deleted "a.log.X"]) := by
  decide

/-- C2: with the lock file already exclusively locked by another process,
`fcntl.lockf` raises `IOError(EAGAIN)`; `rotate_log_files` logs the warning
and renames nothing, but the `request_lock` generator — resumed past
`yield False` by `contextlib` when the body returns — executes its
unconditional bare `raise` and the `IOError` propagates out of
`rotate_log_files` instead of the run returning cleanly. -/
theorem C2_lock_contention_raises :
    rotate_log_files inpLockHeld = (some EAGAIN, [.warn_lock_held]) ∧
      some EAGAIN ≠ (none : Option Nat) := by
  constructor
  · rfl
  · decide


/-- One unfolding of the drain loop at a nonempty working set and a nonempty
observation trace. -/
theorem drain_run_cons (behavior : String → FileBehavior) (fds : List String)
    (rest : List (List String)) (c : List String) (checks : Nat) (hc : c ≠ []) :
    drain_run behavior (fds :: rest) c checks =
      if (check_for_open_files c fds).1 = [] then
        if MAX_CHECKS_WITHOUT_FILE_CLOSED < checks + 1 then
          (.gaveUp, .polled ::
            (((check_for_open_files c fds).1.map (try_process behavior)).flatten ++
              [.error_gave_up (check_for_open_files c fds).2]))
        else
          ((drain_run behavior rest (check_for_open_files c fds).2 (checks + 1)).1,
            .polled ::
              (((check_for_open_files c fds).1.map (try_process behavior)).flatten ++
                (drain_run behavior rest (check_for_open_files c fds).2 (checks + 1)).2))
      else
        ((drain_run behavior rest (check_for_open_files c fds).2 0).1,
          .polled ::
            (((check_for_open_files c fds).1.map (try_process behavior)).flatten ++
              (drain_run behavior rest (check_for_open_files c fds).2 0).2)) := by
  conv_lhs => rw [drain_run]
  rw [if_neg hc]

/-- When every member of the working set appears among the observed targets,
the cycle closes nothing: the closed set is empty and the open set carries the
same names as the working set, without duplicates and nonempty. -/
theorem cycle_all_open (c fds : List String) (hc : c ≠ [])
    (hall : ∀ f ∈ c, f ∈ fds) :
    (check_for_open_files c fds).1 = [] ∧
      (check_for_open_files c fds).2.toFinset = c.toFinset ∧
      (check_for_open_files c fds).2 ≠ [] := by
  have hclosed : (check_for_open_files c fds).1 = [] := by
    unfold check_for_open_files
    rw [cof_foldl_closed fds _ _ c.nodup_dedup]
    refine List.filter_eq_nil_iff.mpr ?_
    intro a ha
    simp only [decide_eq_true_eq, not_not]
    exact hall a (List.mem_dedup.mp ha)
  have hopen : (check_for_open_files c fds).2.toFinset = c.toFinset := by
    have h2 := (check_for_open_files_spec c fds).2
    rw [h2]
    refine Finset.inter_eq_left.mpr ?_
    intro x hx
    rw [List.mem_toFinset] at hx
    exact List.mem_toFinset.mpr (hall x hx)
  refine ⟨hclosed, hopen, ?_⟩
  intro hnil
  rw [hnil] at hopen
  rcases List.exists_mem_of_ne_nil c hc with ⟨x, hx⟩
  have : x ∈ c.toFinset := List.mem_toFinset.mpr hx
  rw [← hopen] at this
  simp at this

/-- Starvation unfolding of the drain loop: starting `n` cycles before the
give-up bound with a nonempty working set that every one of the next `n`
observations reports fully open, the loop polls exactly `n` more times and
then gives up, logging the still-open names. -/
theorem drain_starve_aux (behavior : String → FileBehavior) :
    ∀ (n checks : Nat), checks + n = MAX_CHECKS_WITHOUT_FILE_CLOSED + 1 → 1 ≤ n →
      ∀ (trace rest : List (List String)) (c : List String),
        trace.length = n → c ≠ [] →
        (∀ fds ∈ trace, ∀ f ∈ c, f ∈ fds) →
        ∃ names : List String,
          drain_run behavior (trace ++ rest) c checks =
              (.gaveUp, List.replicate n .polled ++ [.error_gave_up names]) ∧
            names.toFinset = c.toFinset ∧ names ≠ [] := by
  intro n
  induction n with
  | zero => omega
  | succ m ih =>
    intro checks hsum _ trace rest c hlen hc hall
    cases trace with
    | nil => simp at hlen
    | cons fds trace' =>
      have hlen' : trace'.length = m := by simpa using hlen
      obtain ⟨hclosed, hopen_set, hopen_ne⟩ :=
        cycle_all_open c fds hc (hall fds (List.mem_cons_self fds trace'))
      rw [List.cons_append, drain_run_cons behavior fds (trace' ++ rest) c checks hc,
        if_pos hclosed, hclosed]
      by_cases hm : m = 0
      · subst hm
        have hchecks : checks = MAX_CHECKS_WITHOUT_FILE_CLOSED := by omega
        rw [if_pos (by omega)]
        exact ⟨(check_for_open_files c fds).2, rfl, hopen_set, hopen_ne⟩
      · rw [if_neg (by omega)]
        have hall' : ∀ fds' ∈ trace', ∀ f ∈ (check_for_open_files c fds).2, f ∈ fds' := by
          intro fds' hf' f hf
          have hfc : f ∈ c := by
            have hmem : f ∈ (check_for_open_files c fds).2.toFinset :=
              List.mem_toFinset.mpr hf
            rw [hopen_set] at hmem
            exact List.mem_toFinset.mp hmem
          exact hall fds' (List.mem_cons_of_mem fds hf') f hfc
        obtain ⟨names, heq, hset, hne⟩ :=
          ih (checks + 1) (by omega) (by omega) trace' rest
            (check_for_open_files c fds).2 hlen' hopen_ne hall'
        refine ⟨names, ?_, hset.trans hopen_set, hne⟩
        rw [heq]
        simp [List.replicate_succ]

/-- C5: the drain loop counts consecutive poll cycles that close no file;
with the counter starting at zero and the next `MAX_CHECKS_WITHOUT_FILE_CLOSED
+ 1 = 13` complete scans all reporting every remaining file open, the loop
polls exactly those 13 cycles (at the 5-second throttle interval), then logs
an error listing the still-open file names and returns, leaving those files
unprocessed — no processing event is emitted and no further cycle runs,
whatever observations would follow. -/
theorem C5_drain_gives_up_after_thirteen_starved_cycles
    (behavior : String → FileBehavior) (trace rest : List (List String))
    (c : List String) (hc : c ≠ [])
    (hlen : trace.length = MAX_CHECKS_WITHOUT_FILE_CLOSED + 1)
    (hall : ∀ fds ∈ trace, ∀ f ∈ c, f ∈ fds) :
    MAX_CHECKS_WITHOUT_FILE_CLOSED = 12 ∧ FILE_OPEN_CHECK_INTERVAL = 5 ∧
      ∃ names : List String,
        drain_run behavior (trace ++ rest) c 0 =
            (.gaveUp, List.replicate (MAX_CHECKS_WITHOUT_FILE_CLOSED + 1) .polled ++
              [.error_gave_up names]) ∧
          names.toFinset = c.toFinset ∧ names ≠ [] :=
  ⟨rfl, rfl,
    drain_starve_aux behavior (MAX_CHECKS_WITHOUT_FILE_CLOSED + 1) 0 rfl
      (by norm_num) trace rest c hlen hc hall⟩

/-- C5 witness: a single rotated file that thirteen successive scans all
report open makes the run give up after exactly thirteen polls. -/
theorem C5_drain_gives_up_witness :
    MAX_CHECKS_WITHOUT_FILE_CLOSED = 12 ∧ FILE_OPEN_CHECK_INTERVAL = 5 ∧
      ∃ names : List String,
        drain_run behOk (List.replicate 13 ["a.log.X"] ++ []) ["a.log.X"] 0 =
            (.gaveUp, List.replicate (MAX_CHECKS_WITHOUT_FILE_CLOSED + 1) .polled ++
              [.error_gave_up names]) ∧
          names.toFinset = (["a.log.X"] : List String).toFinset ∧ names ≠ [] :=
  C5_drain_gives_up_after_thirteen_starved_cycles behOk
    (List.replicate 13 ["a.log.X"]) [] ["a.log.X"]
    (by decide) (by decide) (by decide)

/-- The drain loop's control flow — which files close when, the give-up
counter and the final outcome — never depends on the per-file processing
behaviour: a processing failure cannot abort or redirect the loop. -/
theorem drain_run_outcome_independent (b1 b2 : String → FileBehavior) :
    ∀ (trace : List (List String)) (c : List String) (checks : Nat),
      (drain_run b1 trace c checks).1 = (drain_run b2 trace c checks).1 := by
  intro trace
  induction trace with
  | nil =>
    intro c checks
    rw [drain_run, drain_run]
  | cons fds rest ih =>
    intro c checks
    by_cases hc : c = []
    · subst hc
      rw [drain_run, drain_run]
      rfl
    · rw [drain_run_cons b1 fds rest c checks hc,
        drain_run_cons b2 fds rest c checks hc]
      by_cases h1 : (check_for_open_files c fds).1 = []
      · rw [if_pos h1, if_pos h1]
        by_cases h2 : MAX_CHECKS_WITHOUT_FILE_CLOSED < checks + 1
        · rw [if_pos h2, if_pos h2]
        · rw [if_neg h2, if_neg h2]
          exact ih _ _
      · rw [if_neg h1, if_neg h1]
        exact ih _ _

/-- A file observed closed in a cycle whose processing raises gets an error
event carrying its name in that cycle's portion of the drain trace. -/
theorem error_logged_in_cycle (behavior : String → FileBehavior)
    (fds : List String) (rest : List (List String)) (c : List String)
    (checks : Nat) (f : String) (hc : c ≠ [])
    (hf : f ∈ (check_for_open_files c fds).1)
    (hraise : (process_file (behavior f) f).2 = true) :
    Event.error_processing f ∈ (drain_run behavior (fds :: rest) c checks).2 := by
  rw [drain_run_cons behavior fds rest c checks hc]
  have h1 : (check_for_open_files c fds).1 ≠ [] := by
    intro h
    rw [h] at hf
    cases hf
  rw [if_neg h1]
  simp only [List.mem_cons]
  right
  apply List.mem_append.mpr
  left
  apply List.mem_flatten.mpr
  refine ⟨try_process behavior f, List.mem_map.mpr ⟨f, hf, rfl⟩, ?_⟩
  simp [try_process, hraise]

/-- C6: per-file processing errors are isolated. The drain loop's outcome is
identical under any two per-file behaviours — no exception raised while
staging, compressing or uploading a file propagates out of the loop or changes
which files are processed in this or later cycles — and every file observed
closed whose processing raises gets the error logged with its filename while
the run continues. -/
theorem C6_per_file_errors_isolated (b1 b2 : String → FileBehavior)
    (trace : List (List String)) (c0 : List String) (checks0 : Nat)
    (fds : List String) (rest : List (List String)) (c : List String)
    (checks : Nat) (f : String) (hc : c ≠ [])
    (hf : f ∈ (check_for_open_files c fds).1)
    (hraise : (process_file (b1 f) f).2 = true) :
    (drain_run b1 trace c0 checks0).1 = (drain_run b2 trace c0 checks0).1 ∧
      Event.error_processing f ∈ (drain_run b1 (fds :: rest) c checks).2 :=
  ⟨drain_run_outcome_independent b1 b2 trace c0 checks0,
    error_logged_in_cycle b1 fds rest c checks f hc hf hraise⟩

/-- C6 witness: with the upload of `a.log.X` raising, the drain outcome
matches the all-success outcome and the error is logged with the filename. -/
theorem C6_per_file_errors_witness :
    (drain_run behUploadFails [[]] ["a.log.X"] 0).1 =
        (drain_run behOk [[]] ["a.log.X"] 0).1 ∧
      Event.error_processing "a.log.X" ∈
        (drain_run behUploadFails ([] :: []) ["a.log.X"] 0).2 :=
  C6_per_file_errors_isolated behUploadFails behOk [[]] ["a.log.X"] 0
    [] [] ["a.log.X"] 0 "a.log.X" (by decide) (by decide) (by decide)


/-- Appending the same suffix to two names yields equal strings only for equal
names. -/
theorem string_append_right_cancel {a b : String} (s : String)
    (h : a ++ s = b ++ s) : a = b := by
  apply String.ext
  have hd := congrArg String.data h
  simp only [String.data_append] at hd
  exact List.append_cancel_right hd

/-- `os.path.join` with a fixed directory is injective in the name. -/
theorem pjoin_injective (dir : String) {a b : String}
    (h : pjoin dir a = pjoin dir b) : a = b := by
  apply String.ext
  have hd := congrArg String.data h
  simp only [pjoin, String.data_append] at hd
  exact List.append_cancel_left hd

/-- A path that no remaining candidate owns survives the rename loop. -/
theorem rename_phase_preserves (dir suffix p : String) :
    ∀ (cands : List String) (fs : Finset String),
      (∀ c ∈ cands, pjoin dir c ≠ p) → p ∈ fs →
      p ∈ (rename_phase dir suffix fs cands).1 := by
  intro cands
  induction cands with
  | nil =>
    intro fs _ hp
    simpa [rename_phase] using hp
  | cons a rest ih =>
    intro fs hne hp
    by_cases h : pjoin dir (a ++ suffix) ∈ fs
    · have hres : (rename_phase dir suffix fs (a :: rest)).1 =
          (rename_phase dir suffix fs rest).1 := by
        simp only [rename_phase]
        rw [if_pos h]
      rw [hres]
      exact ih fs (fun c hc => hne c (List.mem_cons_of_mem a hc)) hp
    · have hres : (rename_phase dir suffix fs (a :: rest)).1 =
          (rename_phase dir suffix
            (insert (pjoin dir (a ++ suffix)) (fs.erase (pjoin dir a))) rest).1 := by
        simp only [rename_phase]
        rw [if_neg h]
      rw [hres]
      refine ih _ (fun c hc => hne c (List.mem_cons_of_mem a hc)) ?_
      apply Finset.mem_insert_of_mem
      exact Finset.mem_erase.mpr ⟨fun hEq => hne a (List.mem_cons_self a rest) hEq.symm, hp⟩

/-- Every event the rename loop logs concerns one of its candidates: a rename
event carries a candidate's original and suffixed target paths, a collision
warning a candidate's suffixed target path. -/
theorem rename_phase_events (dir suffix : String) :
    ∀ (cands : List String) (fs : Finset String),
      ∀ ev ∈ (rename_phase dir suffix fs cands).2.2,
        (∃ c ∈ cands, ev = Event.renamed (pjoin dir c) (pjoin dir (c ++ suffix))) ∨
        (∃ c ∈ cands, ev = Event.warn_collision (pjoin dir (c ++ suffix))) := by
  intro cands
  induction cands with
  | nil =>
    intro fs ev hev
    simp [rename_phase] at hev
  | cons a rest ih =>
    intro fs ev hev
    by_cases h : pjoin dir (a ++ suffix) ∈ fs
    · have hres : (rename_phase dir suffix fs (a :: rest)).2.2 =
          .warn_collision (pjoin dir (a ++ suffix)) ::
            (rename_phase dir suffix fs rest).2.2 := by
        simp only [rename_phase]
        rw [if_pos h]
      rw [hres] at hev
      rcases List.mem_cons.mp hev with hev | hev
      · exact Or.inr ⟨a, List.mem_cons_self a rest, hev⟩
      · rcases ih fs ev hev with ⟨c, hc, hev'⟩ | ⟨c, hc, hev'⟩
        · exact Or.inl ⟨c, List.mem_cons_of_mem a hc, hev'⟩
        · exact Or.inr ⟨c, List.mem_cons_of_mem a hc, hev'⟩
    · have hres : (rename_phase dir suffix fs (a :: rest)).2.2 =
          .renamed (pjoin dir a) (pjoin dir (a ++ suffix)) ::
            (rename_phase dir suffix
              (insert (pjoin dir (a ++ suffix)) (fs.erase (pjoin dir a))) rest).2.2 := by
        simp only [rename_phase]
        rw [if_neg h]
      rw [hres] at hev
      rcases List.mem_cons.mp hev with hev | hev
      · exact Or.inl ⟨a, List.mem_cons_self a rest, hev⟩
      · rcases ih _ ev hev with ⟨c, hc, hev'⟩ | ⟨c, hc, hev'⟩
        · exact Or.inl ⟨c, List.mem_cons_of_mem a hc, hev'⟩
        · exact Or.inr ⟨c, List.mem_cons_of_mem a hc, hev'⟩

/-- Guarded case analysis of the rename loop, with duplicate-free candidates
whose original paths all exist and no candidate equal to another candidate
extended by the suffix (outside that overlap a rename never creates or
destroys another candidate's target mid-loop, so each candidate's
`os.path.exists` test agrees with the initial directory state). A candidate
whose suffixed target does not pre-exist is renamed exactly once — rename
event logged, rotated name recorded once, no collision warning for it — and a
candidate whose target pre-exists is left untouched — collision warning
logged, no rename event for it, its name never in `rotated_files`, its
original path still present afterwards. Every recorded rotated name is a
candidate's name extended by the one shared suffix. -/
theorem rename_phase_guarded (dir suffix : String) :
    ∀ (cands : List String) (fs : Finset String), cands.Nodup →
      (∀ c ∈ cands, pjoin dir c ∈ fs) →
      (∀ c ∈ cands, (c ++ suffix) ∉ cands) →
      (∀ c ∈ cands,
        (pjoin dir (c ++ suffix) ∉ fs →
          Event.renamed (pjoin dir c) (pjoin dir (c ++ suffix)) ∈
              (rename_phase dir suffix fs cands).2.2 ∧
            (rename_phase dir suffix fs cands).2.1.count (c ++ suffix) = 1 ∧
            Event.warn_collision (pjoin dir (c ++ suffix)) ∉
              (rename_phase dir suffix fs cands).2.2) ∧
        (pjoin dir (c ++ suffix) ∈ fs →
          Event.warn_collision (pjoin dir (c ++ suffix)) ∈
              (rename_phase dir suffix fs cands).2.2 ∧
            (c ++ suffix) ∉ (rename_phase dir suffix fs cands).2.1 ∧
            Event.renamed (pjoin dir c) (pjoin dir (c ++ suffix)) ∉
              (rename_phase dir suffix fs cands).2.2 ∧
            pjoin dir c ∈ (rename_phase dir suffix fs cands).1)) ∧
      (∀ r ∈ (rename_phase dir suffix fs cands).2.1,
        ∃ c ∈ cands, r = c ++ suffix) := by
  intro cands
  induction cands with
  | nil =>
    intro fs _ _ _
    constructor
    · intro c hc
      cases hc
    · intro r hr
      simp [rename_phase] at hr
  | cons a rest ih =>
    intro fs hnd hex hnov
    have hand : a ∉ rest := (List.nodup_cons.mp hnd).1
    have hndr : rest.Nodup := (List.nodup_cons.mp hnd).2
    have hnovr : ∀ c ∈ rest, (c ++ suffix) ∉ rest := fun c hc hmem =>
      hnov c (List.mem_cons_of_mem a hc) (List.mem_cons_of_mem a hmem)
    by_cases h : pjoin dir (a ++ suffix) ∈ fs
    · have hres : rename_phase dir suffix fs (a :: rest) =
          ((rename_phase dir suffix fs rest).1,
            (rename_phase dir suffix fs rest).2.1,
            .warn_collision (pjoin dir (a ++ suffix)) ::
              (rename_phase dir suffix fs rest).2.2) := by
        simp only [rename_phase]
        rw [if_pos h]
      obtain ⟨ihd, ihr⟩ := ih fs hndr (fun c hc => hex c (List.mem_cons_of_mem a hc)) hnovr
      rw [hres]
      constructor
      · intro c hc
        rcases List.mem_cons.mp hc with hceq | hc
        · subst hceq
          constructor
          · intro habs
            exact absurd h habs
          · intro _
            refine ⟨List.mem_cons_self _ _, ?_, ?_, ?_⟩
            · intro hmem
              obtain ⟨c', hc', heq⟩ := ihr _ hmem
              refine hand ?_
              rw [string_append_right_cancel suffix heq]
              exact hc'
            · intro hmem
              rcases List.mem_cons.mp hmem with hEq | hmem'
              · exact Event.noConfusion hEq
              · rcases rename_phase_events dir suffix rest fs _ hmem' with
                  ⟨c', hc', hev⟩ | ⟨c', hc', hev⟩
                · have hpj : pjoin dir c = pjoin dir c' := by
                    injection hev with h1 h2
                  refine hand ?_
                  rw [pjoin_injective dir hpj]
                  exact hc'
                · exact Event.noConfusion hev
            · exact rename_phase_preserves dir suffix (pjoin dir c) rest fs
                (fun c' hc' hEq => hand (pjoin_injective dir hEq ▸ hc'))
                (hex c (List.mem_cons_self c rest))
        · have hca : c ≠ a := fun hEq => hand (hEq ▸ hc)
          obtain ⟨ih1, ih2⟩ := ihd c hc
          constructor
          · intro hguard
            obtain ⟨e1, e2, e3⟩ := ih1 hguard
            refine ⟨List.mem_cons_of_mem _ e1, e2, ?_⟩
            intro hmem
            rcases List.mem_cons.mp hmem with hEq | hmem'
            · have hpj : pjoin dir (c ++ suffix) = pjoin dir (a ++ suffix) := by
                injection hEq
              exact hca (string_append_right_cancel suffix (pjoin_injective dir hpj))
            · exact e3 hmem'
          · intro hguard
            obtain ⟨e1, e2, e3, e4⟩ := ih2 hguard
            refine ⟨List.mem_cons_of_mem _ e1, e2, ?_, e4⟩
            intro hmem
            rcases List.mem_cons.mp hmem with hEq | hmem'
            · exact Event.noConfusion hEq
            · exact e3 hmem'
      · intro r hr
        obtain ⟨c', hc', heq⟩ := ihr r hr
        exact ⟨c', List.mem_cons_of_mem a hc', heq⟩
    · have hres : rename_phase dir suffix fs (a :: rest) =
          ((rename_phase dir suffix
              (insert (pjoin dir (a ++ suffix)) (fs.erase (pjoin dir a))) rest).1,
            (a ++ suffix) ::
              (rename_phase dir suffix
                (insert (pjoin dir (a ++ suffix)) (fs.erase (pjoin dir a))) rest).2.1,
            .renamed (pjoin dir a) (pjoin dir (a ++ suffix)) ::
              (rename_phase dir suffix
                (insert (pjoin dir (a ++ suffix)) (fs.erase (pjoin dir a))) rest).2.2) := by
        simp only [rename_phase]
        rw [if_neg h]
      have hex1 : ∀ c ∈ rest,
          pjoin dir c ∈ insert (pjoin dir (a ++ suffix)) (fs.erase (pjoin dir a)) := by
        intro c hc
        apply Finset.mem_insert_of_mem
        refine Finset.mem_erase.mpr ⟨?_, hex c (List.mem_cons_of_mem a hc)⟩
        intro hEq
        exact hand (pjoin_injective dir hEq ▸ hc)
      have hguard_iff : ∀ c ∈ rest,
          (pjoin dir (c ++ suffix) ∈
              insert (pjoin dir (a ++ suffix)) (fs.erase (pjoin dir a)) ↔
            pjoin dir (c ++ suffix) ∈ fs) := by
        intro c hc
        have h1 : pjoin dir (c ++ suffix) ≠ pjoin dir (a ++ suffix) := by
          intro hEq
          have hcs := string_append_right_cancel suffix (pjoin_injective dir hEq)
          exact hand (hcs ▸ hc)
        have h2 : pjoin dir (c ++ suffix) ≠ pjoin dir a := by
          intro hEq
          have hcs : c ++ suffix = a := pjoin_injective dir hEq
          refine hnov c (List.mem_cons_of_mem a hc) ?_
          rw [hcs]
          exact List.mem_cons_self a rest
        simp [Finset.mem_insert, Finset.mem_erase, h1, h2]
      obtain ⟨ihd, ihr⟩ := ih _ hndr hex1 hnovr
      rw [hres]
      constructor
      · intro c hc
        rcases List.mem_cons.mp hc with hceq | hc
        · subst hceq
          constructor
          · intro _
            refine ⟨List.mem_cons_self _ _, ?_, ?_⟩
            · rw [List.count_cons_self]
              have hz : (rename_phase dir suffix
                  (insert (pjoin dir (c ++ suffix)) (fs.erase (pjoin dir c)))
                    rest).2.1.count (c ++ suffix) = 0 := by
                rw [List.count_eq_zero]
                intro hmem
                obtain ⟨c', hc', heq⟩ := ihr _ hmem
                refine hand ?_
                rw [string_append_right_cancel suffix heq]
                exact hc'
              rw [hz]
            · intro hmem
              rcases List.mem_cons.mp hmem with hEq | hmem'
              · exact Event.noConfusion hEq
              · rcases rename_phase_events dir suffix rest _ _ hmem' with
                  ⟨c', hc', hev⟩ | ⟨c', hc', hev⟩
                · exact Event.noConfusion hev
                · have hpj : pjoin dir (c ++ suffix) = pjoin dir (c' ++ suffix) := by
                    injection hev
                  refine hand ?_
                  rw [string_append_right_cancel suffix (pjoin_injective dir hpj)]
                  exact hc'
          · intro habs
            exact absurd habs h
        · have hca : c ≠ a := fun hEq => hand (hEq ▸ hc)
          have hne2 : c ++ suffix ≠ a ++ suffix := fun hEq =>
            hca (string_append_right_cancel suffix hEq)
          obtain ⟨ih1, ih2⟩ := ihd c hc
          constructor
          · intro hguard
            have hguard1 : pjoin dir (c ++ suffix) ∉
                insert (pjoin dir (a ++ suffix)) (fs.erase (pjoin dir a)) :=
              fun hmem => hguard ((hguard_iff c hc).mp hmem)
            obtain ⟨e1, e2, e3⟩ := ih1 hguard1
            refine ⟨List.mem_cons_of_mem _ e1, ?_, ?_⟩
            · rw [List.count_cons_of_ne hne2, e2]
            · intro hmem
              rcases List.mem_cons.mp hmem with hEq | hmem'
              · exact Event.noConfusion hEq
              · exact e3 hmem'
          · intro hguard
            have hguard1 : pjoin dir (c ++ suffix) ∈
                insert (pjoin dir (a ++ suffix)) (fs.erase (pjoin dir a)) :=
              (hguard_iff c hc).mpr hguard
            obtain ⟨e1, e2, e3, e4⟩ := ih2 hguard1
            refine ⟨List.mem_cons_of_mem _ e1, ?_, ?_, e4⟩
            · intro hmem
              rcases List.mem_cons.mp hmem with hEq | hmem'
              · exact hne2 hEq
              · exact e2 hmem'
            · intro hmem
              rcases List.mem_cons.mp hmem with hEq | hmem'
              · have hpj : pjoin dir c = pjoin dir a := by
                  injection hEq with h1 h2
                exact hca (pjoin_injective dir hpj)
              · exact e3 hmem'
      · intro r hr
        rcases List.mem_cons.mp hr with hEq | hr'
        · exact ⟨a, List.mem_cons_self _ _, hEq⟩
        · obtain ⟨c', hc', heq⟩ := ihr r hr'
          exact ⟨c', List.mem_cons_of_mem a hc', heq⟩

/-- C7: one timestamp suffix is computed once and shared by all candidates of
a run. Provided no candidate name equals another candidate's name already
extended by the suffix (when the filter matches both `f` and `f ++ suffix`,
renaming one mid-loop creates or destroys the other's target, so the source's
outcome depends on Python's arbitrary dict iteration order and the claim's
"already exists" is well defined only outside that overlap), every file
matching the glob filter whose suffixed target path does not already exist is
renamed exactly once to `name + suffix`: the rename event is logged, the
rotated name is recorded exactly once, and no collision warning for it is
emitted. Every candidate whose suffixed target path pre-exists is left
untouched: the collision warning is logged, no rename event for it is emitted,
its suffixed name never enters `rotated_files` (no alternative suffix is
tried), and its original path still exists afterwards. Every recorded rotated
name is a matching candidate's name extended by the one shared suffix. -/
theorem C7_rename_once_with_shared_suffix (dir suffix : String)
    (pred : String → Bool) (listing : List String) (fs : Finset String)
    (hnd : listing.Nodup)
    (hex : ∀ c ∈ listing.filter pred, pjoin dir c ∈ fs)
    (hnov : ∀ c ∈ listing.filter pred, (c ++ suffix) ∉ listing.filter pred) :
    (∀ c ∈ listing.filter pred,
      (pjoin dir (c ++ suffix) ∉ fs →
        Event.renamed (pjoin dir c) (pjoin dir (c ++ suffix)) ∈
            (rename_phase dir suffix fs (listing.filter pred)).2.2 ∧
          (rename_phase dir suffix fs (listing.filter pred)).2.1.count
            (c ++ suffix) = 1 ∧
          Event.warn_collision (pjoin dir (c ++ suffix)) ∉
            (rename_phase dir suffix fs (listing.filter pred)).2.2) ∧
      (pjoin dir (c ++ suffix) ∈ fs →
        Event.warn_collision (pjoin dir (c ++ suffix)) ∈
            (rename_phase dir suffix fs (listing.filter pred)).2.2 ∧
          (c ++ suffix) ∉ (rename_phase dir suffix fs (listing.filter pred)).2.1 ∧
          Event.renamed (pjoin dir c) (pjoin dir (c ++ suffix)) ∉
            (rename_phase dir suffix fs (listing.filter pred)).2.2 ∧
          pjoin dir c ∈ (rename_phase dir suffix fs (listing.filter pred)).1)) ∧
    (∀ r ∈ (rename_phase dir suffix fs (listing.filter pred)).2.1,
      ∃ c ∈ listing.filter pred, r = c ++ suffix) :=
  rename_phase_guarded dir suffix (listing.filter pred) fs (hnd.filter pred) hex hnov

/-- C7 witness: with candidates `a.log` (suffixed target absent) and `b.log`
(target `/var/log/b.logX` pre-existing), `a.log` is renamed exactly once with
the shared suffix and no collision warning, while `b.log` is skipped with the
warning, never renamed, and its original path survives the phase. -/
theorem C7_rename_once_witness :
    (Event.renamed (pjoin "/var/log" "a.log") (pjoin "/var/log" ("a.log" ++ "X")) ∈
        (rename_phase "/var/log" "X"
          {"/var/log/a.log", "/var/log/b.log", "/var/log/b.logX"}
          ((["a.log", "b.log"] : List String).filter fun _ => true)).2.2 ∧
      (rename_phase "/var/log" "X"
          {"/var/log/a.log", "/var/log/b.log", "/var/log/b.logX"}
          ((["a.log", "b.log"] : List String).filter fun _ => true)).2.1.count
        ("a.log" ++ "X") = 1 ∧
      Event.warn_collision (pjoin "/var/log" ("a.log" ++ "X")) ∉
        (rename_phase "/var/log" "X"
          {"/var/log/a.log", "/var/log/b.log", "/var/log/b.logX"}
          ((["a.log", "b.log"] : List String).filter fun _ => true)).2.2) ∧
    (Event.warn_collision (pjoin "/var/log" ("b.log" ++ "X")) ∈
        (rename_phase "/var/log" "X"
          {"/var/log/a.log", "/var/log/b.log", "/var/log/b.logX"}
          ((["a.log", "b.log"] : List String).filter fun _ => true)).2.2 ∧
      ("b.log" ++ "X") ∉
        (rename_phase "/var/log" "X"
          {"/var/log/a.log", "/var/log/b.log", "/var/log/b.logX"}
          ((["a.log", "b.log"] : List String).filter fun _ => true)).2.1 ∧
      Event.renamed (pjoin "/var/log" "b.log") (pjoin "/var/log" ("b.log" ++ "X")) ∉
        (rename_phase "/var/log" "X"
          {"/var/log/a.log", "/var/log/b.log", "/var/log/b.logX"}
          ((["a.log", "b.log"] : List String).filter fun _ => true)).2.2 ∧
      pjoin "/var/log" "b.log" ∈
        (rename_phase "/var/log" "X"
          {"/var/log/a.log", "/var/log/b.log", "/var/log/b.logX"}
          ((["a.log", "b.log"] : List String).filter fun _ => true)).1) :=
  ⟨((C7_rename_once_with_shared_suffix "/var/log" "X" (fun _ => true)
        ["a.log", "b.log"]
        {"/var/log/a.log", "/var/log/b.log", "/var/log/b.logX"}
        (by decide) (by decide) (by decide)).1 "a.log" (by decide)).1 (by decide),
    ((C7_rename_once_with_shared_suffix "/var/log" "X" (fun _ => true)
        ["a.log", "b.log"]
        {"/var/log/a.log", "/var/log/b.log", "/var/log/b.logX"}
        (by decide) (by decide) (by decide)).1 "b.log" (by decide)).2 (by decide)⟩

end Lathe
